import Mathlib

/-!
Verification development for the console-team core of this repository:
the team aggregate store (console-team/src/state.rs), its task dependency
state machine, and the persistence discipline. The Rust operations are
embedded as pure Lean functions; the read-write lock serialises every
mutation, so each operation is faithfully a function from the aggregate
(plus the inputs the runtime supplies: fresh identifiers and timestamps)
to a result and a successor aggregate.
-/

namespace ConsoleTeam

/-- Role of an agent within a team (console-team/src/types.rs). -/
inductive TeamAgentRole
  | lead
  | teammate
deriving DecidableEq

/-- Runtime status of a team agent (console-team/src/types.rs). -/
inductive TeamAgentStatus
  | active
  | idle
  | shutdown
deriving DecidableEq

/-- Status of a task on the shared board (console-team/src/types.rs). -/
inductive TaskStatus
  | pending
  | inProgress
  | completed
  | blocked
deriving DecidableEq

/-- A member of a team (console-team/src/types.rs). Thread ids are opaque
handles; timestamps are abstracted as naturals. -/
structure TeamAgent where
  id : String
  name : String
  role : TeamAgentRole
  status : TeamAgentStatus
  model : Option String
  thread_id : Option Nat
  created_at : Nat
deriving DecidableEq

/-- A task on the shared board (console-team/src/types.rs), including the
optional result text attached when the task is completed. -/
structure TeamTask where
  id : String
  title : String
  status : TaskStatus
  assignee_id : Option String
  result : Option String
  depends_on : List String
  created_at : Nat
  updated_at : Nat
deriving DecidableEq

/-- A message exchanged between team agents (console-team/src/types.rs). -/
structure TeamMessage where
  id : String
  from_ : String
  to_ : String
  body : String
  created_at : Nat
deriving DecidableEq

/-- Full persisted state of a team (console-team/src/types.rs). -/
structure TeamStateData where
  team : String
  created_at : Nat
  updated_at : Nat
  lead_id : String
  agents : List TeamAgent
  tasks : List TeamTask
  messages : List TeamMessage
deriving DecidableEq

/-- Errors produced by team orchestration operations
(console-team/src/error.rs): InvalidOperation carries a message; Io and
Json failures are collapsed to a single constructor each. -/
inductive TeamError
  | invalidOperation (msg : String)
  | ioError
deriving DecidableEq

/-- The character mapping of sanitize_team_name: ASCII alphanumerics,
hyphen and underscore pass through, everything else becomes an underscore
(console-team/src/state.rs). -/
def sanitizeChar (c : Char) : Char :=
  if c.isAlphanum || c = '-' || c = '_' then c else '_'

/-- Sanitize a team name so it is safe as a filename component
(console-team/src/state.rs, function sanitize_team_name). -/
def sanitize_team_name (name : String) : Except TeamError String :=
  if name = "" then
    .error (.invalidOperation "Team name must not be empty")
  else if name = "." ∨ name = ".." then
    .error (.invalidOperation ("Team name is not allowed: " ++ name))
  else
    .ok (String.mk (name.data.map sanitizeChar))

/-- Replace the first element satisfying p by its image under f, leaving
the rest of the list unchanged. This is the effect of the Rust idiom
iter_mut().find(p) followed by a field assignment. -/
def updateFirst (p : α → Bool) (f : α → α) : List α → List α
  | [] => []
  | x :: xs => if p x then f x :: xs else x :: updateFirst p f xs

/-- The state created by TeamState::create_team once the name has been
sanitized: one Lead agent, no tasks, no messages
(console-team/src/state.rs). -/
def initialState (safe_name lead_name lead_id : String) (now : Nat) :
    TeamStateData :=
  { team := safe_name
    created_at := now
    updated_at := now
    lead_id := lead_id
    agents := [{ id := lead_id, name := lead_name, role := .lead,
                 status := .active, model := none, thread_id := none,
                 created_at := now }]
    tasks := []
    messages := [] }

/-- TeamState::add_agent, in-memory part (console-team/src/state.rs):
append a new Active agent. The generated id and the timestamp are inputs. -/
def add_agent (s : TeamStateData) (name : String) (role : TeamAgentRole)
    (thread_id : Option Nat) (model : Option String) (agentId : String)
    (now : Nat) : TeamAgent × TeamStateData :=
  let agent : TeamAgent :=
    { id := agentId, name := name, role := role, status := .active,
      model := model, thread_id := thread_id, created_at := now }
  (agent, { s with agents := s.agents ++ [agent], updated_at := now })

/-- TeamState::bind_lead_thread, in-memory part
(console-team/src/state.rs): set the thread id of the agent whose id is
lead_id. -/
def bind_lead_thread (s : TeamStateData) (thread_id : Nat) (now : Nat) :
    Except TeamError (TeamAgent × TeamStateData) :=
  match s.agents.find? (fun a => a.id == s.lead_id) with
  | none => .error (.invalidOperation "Lead agent not found")
  | some lead =>
      .ok ({ lead with thread_id := some thread_id },
           { s with
             agents := updateFirst (fun a => a.id == s.lead_id)
               (fun a => { a with thread_id := some thread_id }) s.agents
             updated_at := now })

/-- TeamState::add_task, in-memory part (console-team/src/state.rs):
validate that every dependency id exists, compute the initial status
(Pending when the dependency list is empty or every referenced task is
Completed, Blocked otherwise) and append the new task. -/
def add_task (s : TeamStateData) (title : String) (depends_on : List String)
    (taskId : String) (now : Nat) :
    Except TeamError (TeamTask × TeamStateData) :=
  match depends_on.find? (fun d => !(s.tasks.any (fun t => t.id == d))) with
  | some d => .error (.invalidOperation ("Dependency task not found: " ++ d))
  | none =>
      let all_deps_complete := depends_on.all (fun d =>
        s.tasks.any (fun t => t.id == d && t.status == TaskStatus.completed))
      let status := if depends_on.isEmpty || all_deps_complete
        then TaskStatus.pending else TaskStatus.blocked
      let task : TeamTask :=
        { id := taskId, title := title, status := status,
          assignee_id := none, result := none, depends_on := depends_on,
          created_at := now, updated_at := now }
      .ok (task, { s with tasks := s.tasks ++ [task], updated_at := now })

/-- TeamState::claim_task, in-memory part (console-team/src/state.rs):
the assignee must match an existing agent by id or name, the task must
exist and must be neither Blocked nor Completed; then the task becomes
InProgress with the given assignee. -/
def claim_task (s : TeamStateData) (task_id assignee_id : String)
    (now : Nat) : Except TeamError (TeamTask × TeamStateData) :=
  if s.agents.any (fun a => a.id == assignee_id || a.name == assignee_id) then
    match s.tasks.find? (fun t => t.id == task_id) with
    | none => .error (.invalidOperation ("Task not found: " ++ task_id))
    | some t =>
        if t.status = TaskStatus.blocked then
          .error (.invalidOperation "Cannot claim a blocked task")
        else if t.status = TaskStatus.completed then
          .error (.invalidOperation "Cannot claim a completed task")
        else
          .ok ({ t with status := .inProgress,
                        assignee_id := some assignee_id, updated_at := now },
               { s with
                 tasks := updateFirst (fun u => u.id == task_id)
                   (fun u => { u with status := .inProgress,
                                      assignee_id := some assignee_id,
                                      updated_at := now }) s.tasks
                 updated_at := now })
  else
    .error (.invalidOperation ("Assignee is not a team member: " ++ assignee_id))

/-- The auto-unblock scan of TeamState::complete_task
(console-team/src/state.rs): collect all Completed task ids from the
list (which at the call site already contains the just-completed task),
then promote every Blocked task with a non-empty dependency list fully
contained in that set to Pending. -/
def cascade_unblock (tasks : List TeamTask) (now : Nat) : List TeamTask :=
  let completed_ids :=
    (tasks.filter (fun u => u.status == TaskStatus.completed)).map
      (fun u => u.id)
  tasks.map (fun u =>
    if u.status == TaskStatus.blocked && !u.depends_on.isEmpty &&
        u.depends_on.all (fun d => completed_ids.contains d)
    then { u with status := .pending, updated_at := now }
    else u)

/-- The marking step of TeamState::complete_task: set the first task with
the given id to Completed with the given result text. -/
def markCompleted (tasks : List TeamTask) (task_id : String)
    (result : Option String) (now : Nat) : List TeamTask :=
  updateFirst (fun u => u.id == task_id)
    (fun u => { u with status := .completed, result := result,
                       updated_at := now }) tasks

/-- TeamState::complete_task, in-memory part (console-team/src/state.rs):
mark the task Completed unconditionally, then run the auto-unblock scan.
The result parameter is Modelled from the spec: the body of complete_task
in console-team/src/state.rs predates the result field of TeamTask in
console-team/src/types.rs; the caller handle_team_complete_task in
core/src/team/handler.rs passes an optional result text that, per the
spec, is stored on the task unconditionally. -/
def complete_task (s : TeamStateData) (task_id : String)
    (result : Option String) (now : Nat) :
    Except TeamError (TeamTask × TeamStateData) :=
  match s.tasks.find? (fun t => t.id == task_id) with
  | none => .error (.invalidOperation ("Task not found: " ++ task_id))
  | some t =>
      .ok ({ t with status := .completed, result := result,
                    updated_at := now },
           { s with
             tasks := cascade_unblock
               (markCompleted s.tasks task_id result now) now
             updated_at := now })

/-- TeamState::send_message, in-memory part (console-team/src/state.rs):
append one message. The generated message id is an input. -/
def send_message (s : TeamStateData) (from_ to_ body msgId : String)
    (now : Nat) : TeamMessage × TeamStateData :=
  let msg : TeamMessage :=
    { id := msgId, from_ := from_, to_ := to_, body := body, created_at := now }
  (msg, { s with messages := s.messages ++ [msg], updated_at := now })

/-- Builds one message per recipient, numbering the generated ids. -/
def mkBroadcastMsgs (genId : Nat → String) (from_ body : String)
    (now : Nat) : Nat → List TeamAgent → List TeamMessage
  | _, [] => []
  | i, a :: rest =>
      { id := genId i, from_ := from_, to_ := a.id, body := body,
        created_at := now } :: mkBroadcastMsgs genId from_ body now (i + 1) rest

/-- Modelled from the spec: TeamState::broadcast_message is called from
handle_team_broadcast in core/src/team/handler.rs but its body is not
present in console-team/src/state.rs. Per section 4.1 of the spec,
broadcast appends one message per currently non-Shutdown, non-lead agent,
each carrying the given sender and body. -/
def broadcast_message (s : TeamStateData) (from_ body : String)
    (genId : Nat → String) (now : Nat) :
    List TeamMessage × TeamStateData :=
  let recipients := s.agents.filter (fun a =>
    a.status != TeamAgentStatus.shutdown && a.id != s.lead_id)
  let msgs := mkBroadcastMsgs genId from_ body now 0 recipients
  (msgs, { s with messages := s.messages ++ msgs, updated_at := now })

/-- TeamState::update_agent_status, in-memory part
(console-team/src/state.rs): find the agent by id or name and overwrite
its status. -/
def update_agent_status (s : TeamStateData) (agent_id : String)
    (status : TeamAgentStatus) (now : Nat) :
    Except TeamError (TeamAgent × TeamStateData) :=
  match s.agents.find? (fun a => a.id == agent_id || a.name == agent_id) with
  | none => .error (.invalidOperation ("Agent not found: " ++ agent_id))
  | some a =>
      .ok ({ a with status := status },
           { s with
             agents := updateFirst
               (fun b => b.id == agent_id || b.name == agent_id)
               (fun b => { b with status := status }) s.agents
             updated_at := now })

/-- Names of agents of role Teammate whose status is not Shutdown, in
board order (the filter of TeamState::assert_cleanup_allowed). -/
def activeTeammates (s : TeamStateData) : List String :=
  (s.agents.filter (fun a =>
    a.role == TeamAgentRole.teammate &&
    a.status != TeamAgentStatus.shutdown)).map (fun a => a.name)

/-- TeamState::assert_cleanup_allowed (console-team/src/state.rs):
succeeds when no role-Teammate agent remains non-Shutdown, and otherwise
fails with an InvalidOperation message listing the offending names. -/
def assert_cleanup_allowed (s : TeamStateData) : Except TeamError Unit :=
  let names := activeTeammates s
  if names.isEmpty then .ok ()
  else .error (.invalidOperation
    ("Cannot cleanup team while teammates are active: " ++
     String.intercalate ", " names ++ ". Shut them down first."))

/-- The universe of mutating operations on an existing aggregate, each
carrying its runtime-supplied inputs (generated ids and timestamps). -/
inductive StoreOp
  | addAgent (name : String) (role : TeamAgentRole) (thread_id : Option Nat)
      (model : Option String) (agentId : String) (now : Nat)
  | bindLeadThread (thread_id now : Nat)
  | addTask (title : String) (depends_on : List String) (taskId : String)
      (now : Nat)
  | claimTask (task_id assignee_id : String) (now : Nat)
  | completeTask (task_id : String) (result : Option String) (now : Nat)
  | sendMessage (from_ to_ body msgId : String) (now : Nat)
  | broadcast (from_ body : String) (genId : Nat → String) (now : Nat)
  | updateAgentStatus (agent_id : String) (status : TeamAgentStatus)
      (now : Nat)

/-- Run one mutating operation on the aggregate, returning the successor
state or the business error the operation raised. -/
def applyOpE (op : StoreOp) (s : TeamStateData) :
    Except TeamError TeamStateData :=
  match op with
  | .addAgent n r t m id now => .ok (add_agent s n r t m id now).2
  | .bindLeadThread t now => (bind_lead_thread s t now).map (fun r => r.2)
  | .addTask ti d id now => (add_task s ti d id now).map (fun r => r.2)
  | .claimTask t a now => (claim_task s t a now).map (fun r => r.2)
  | .completeTask t r now => (complete_task s t r now).map (fun x => x.2)
  | .sendMessage f t b id now => .ok (send_message s f t b id now).2
  | .broadcast f b g now => .ok (broadcast_message s f b g now).2
  | .updateAgentStatus a st now =>
      (update_agent_status s a st now).map (fun r => r.2)

/-- The aggregate after an operation: a failed operation leaves the
in-memory state unchanged (every check in state.rs happens before the
first field assignment). -/
def applyOp (s : TeamStateData) (op : StoreOp) : TeamStateData :=
  match applyOpE op s with
  | .ok s2 => s2
  | .error _ => s

/-- The aggregate after a whole sequence of operations. -/
def applySeq (s : TeamStateData) (ops : List StoreOp) : TeamStateData :=
  ops.foldl applyOp s

/-- The process-level store: the optional in-memory aggregate behind the
lock, and the persistence directory modelled as an association list from
file name to snapshot contents. -/
structure Store where
  data : Option TeamStateData
  disk : List (String × TeamStateData)

/-- Overwrite-in-full snapshot write: the file named fname now holds
exactly s (TeamState::persist_inner writes the whole serialized state). -/
def writeDisk (disk : List (String × TeamStateData)) (fname : String)
    (s : TeamStateData) : List (String × TeamStateData) :=
  (fname, s) :: disk.filter (fun e => e.1 != fname)

/-- TeamState::persist_inner (console-team/src/state.rs): re-sanitize the
stored team name, then write the full snapshot to the file named after it.
The possibility of an I/O failure of the underlying write is modelled by
the persistOk flag. -/
def persist_inner (disk : List (String × TeamStateData))
    (s : TeamStateData) (persistOk : Bool) :
    Except TeamError (List (String × TeamStateData)) :=
  match sanitize_team_name s.team with
  | .error e => .error e
  | .ok safe =>
      if persistOk then .ok (writeDisk disk (safe ++ ".json") s)
      else .error .ioError

/-- The common shape of every mutating operation on an existing aggregate
in state.rs: take the write lock, mutate the in-memory state, then
persist. A persistence failure is returned to the caller but the
in-memory mutation stands (memory ahead of disk). -/
def mutateThenPersist (store : Store)
    (f : TeamStateData → Except TeamError TeamStateData)
    (persistOk : Bool) : Except TeamError Unit × Store :=
  match store.data with
  | none => (.error (.invalidOperation "No team has been created yet"), store)
  | some s =>
      match f s with
      | .error e => (.error e, store)
      | .ok s2 =>
          match persist_inner store.disk s2 persistOk with
          | .error e => (.error e, { data := some s2, disk := store.disk })
          | .ok disk2 => (.ok (), { data := some s2, disk := disk2 })

/-- Run one StoreOp at the store level, with the mutate-then-persist
discipline of state.rs. -/
def runOpStore (store : Store) (op : StoreOp) (persistOk : Bool) :
    Except TeamError Unit × Store :=
  mutateThenPersist store (applyOpE op) persistOk

/-- TeamState::create_team at the store level
(console-team/src/state.rs): sanitize the name, reject a duplicate team,
build the initial state, persist it, and only after a successful write
install it as the in-memory aggregate. -/
def create_team_store (store : Store) (team_name lead_name lead_id : String)
    (now : Nat) (persistOk : Bool) :
    Except TeamError TeamStateData × Store :=
  match sanitize_team_name team_name with
  | .error e => (.error e, store)
  | .ok safe =>
      match store.data with
      | some _ => (.error (.invalidOperation "Team already exists"), store)
      | none =>
          let st := initialState safe lead_name lead_id now
          match persist_inner store.disk st persistOk with
          | .error e => (.error e, store)
          | .ok disk2 => (.ok st, { data := some st, disk := disk2 })

/-- TeamState::cleanup (console-team/src/state.rs): if an aggregate is
resident, remove its snapshot file (named after the sanitized team name),
then clear the in-memory state. Removal of a file is modelled as exact;
the best-effort existence check needs no separate modelling. -/
def cleanup_store (store : Store) : Except TeamError Unit × Store :=
  match store.data with
  | none => (.ok (), { store with data := none })
  | some s =>
      match sanitize_team_name s.team with
      | .error e => (.error e, store)
      | .ok safe =>
          (.ok (), { data := none,
                     disk := store.disk.filter
                       (fun e => e.1 != safe ++ ".json") })

/-! ### Concrete fixtures used by the witnesses -/

/-- A lead agent fixture. -/
def agentLead : TeamAgent :=
  { id := "agent-1", name := "lead", role := .lead, status := .active,
    model := none, thread_id := none, created_at := 0 }

/-- A teammate fixture. -/
def agentW : TeamAgent :=
  { id := "agent-2", name := "worker", role := .teammate,
    status := .active, model := none, thread_id := none, created_at := 0 }

/-- A completed task fixture. -/
def taskA : TeamTask :=
  { id := "task-a", title := "A", status := .completed,
    assignee_id := none, result := none, depends_on := [],
    created_at := 0, updated_at := 0 }

/-- A blocked task fixture depending on the completed one. -/
def taskB : TeamTask :=
  { id := "task-b", title := "B", status := .blocked,
    assignee_id := none, result := none, depends_on := ["task-a"],
    created_at := 0, updated_at := 0 }

/-- A pending task fixture. -/
def taskC : TeamTask :=
  { id := "task-c", title := "C", status := .pending,
    assignee_id := none, result := none, depends_on := [],
    created_at := 0, updated_at := 0 }

/-- A small aggregate used to instantiate the theorems. -/
def sampleState : TeamStateData :=
  { team := "proj", created_at := 0, updated_at := 0,
    lead_id := "agent-1", agents := [agentLead, agentW],
    tasks := [taskA, taskB, taskC], messages := [] }

/-! ### Helper lemmas -/

/-- Every character produced by sanitizeChar is alphanumeric, a hyphen or
an underscore. -/
theorem sanitizeChar_valid (c : Char) :
    (sanitizeChar c).isAlphanum ∨ sanitizeChar c = '-' ∨
      sanitizeChar c = '_' := by
  unfold sanitizeChar
  split
  · rename_i hc
    simp only [Bool.or_eq_true, decide_eq_true_eq] at hc
    rcases hc with (h | h) | h
    · exact Or.inl h
    · exact Or.inr (Or.inl h)
    · exact Or.inr (Or.inr h)
  · exact Or.inr (Or.inr rfl)

/-- sanitizeChar never produces a dot. -/
theorem sanitizeChar_ne_dot (c : Char) : sanitizeChar c ≠ '.' := by
  unfold sanitizeChar
  split
  · rename_i hc
    intro h
    rw [h] at hc
    exact absurd hc (by decide)
  · intro h
    exact absurd h (by decide)

/-! ### Claim theorems -/

/-- C9: sanitize_team_name rejects exactly the inputs "", "." and "..";
on any other input it succeeds, its output is the input with every
character replaced by sanitizeChar (so any character that is not an ASCII
alphanumeric, hyphen or underscore becomes an underscore), and hence
every output character is an ASCII alphanumeric, a hyphen or an
underscore. -/
theorem sanitize_team_name_spec (name : String) :
    ((name = "" ∨ name = "." ∨ name = "..") ↔
      ∃ m, sanitize_team_name name = .error (.invalidOperation m)) ∧
    (∀ out, sanitize_team_name name = .ok out →
      out.data = name.data.map sanitizeChar ∧
      ∀ c ∈ out.data, c.isAlphanum ∨ c = '-' ∨ c = '_') := by
  by_cases h1 : name = ""
  · subst h1
    refine ⟨⟨fun _ => ⟨_, rfl⟩, fun _ => Or.inl rfl⟩, ?_⟩
    intro out hout
    simp [sanitize_team_name] at hout
  · by_cases h2 : name = "." ∨ name = ".."
    · constructor
      · refine ⟨fun _ => ⟨"Team name is not allowed: " ++ name, ?_⟩,
          fun _ => Or.inr h2⟩
        rw [sanitize_team_name, if_neg h1, if_pos h2]
      · intro out hout
        rw [sanitize_team_name, if_neg h1, if_pos h2] at hout
        exact absurd hout (by simp)
    · constructor
      · constructor
        · intro h
          rcases h with h | h
          · exact absurd h h1
          · exact absurd h h2
        · intro ⟨m, hm⟩
          rw [sanitize_team_name, if_neg h1, if_neg h2] at hm
          exact absurd hm (by simp)
      · intro out hout
        rw [sanitize_team_name, if_neg h1, if_neg h2] at hout
        have hdata : out = String.mk (name.data.map sanitizeChar) := by
          injection hout with h
          exact h.symm
        subst hdata
        refine ⟨rfl, ?_⟩
        intro c hc
        simp only [List.mem_map] at hc
        obtain ⟨c0, _, hc0⟩ := hc
        rw [← hc0]
        exact sanitizeChar_valid c0

/-- Witness for C9 at a concrete input with a space and a bang. -/
theorem sanitize_team_name_spec_witness :
    "my_team_".data = "my team!".data.map sanitizeChar ∧
    ∀ c ∈ "my_team_".data, c.isAlphanum ∨ c = '-' ∨ c = '_' :=
  (sanitize_team_name_spec "my team!").2 "my_team_" rfl

/-- C4: complete_task sets the task's status to Completed and stores the
given result text unconditionally, with no precondition on the prior
status (re-completing overwrites the stored result), and fails exactly
when no task has the given id. -/
theorem complete_task_unconditional (s : TeamStateData) (task_id : String)
    (result : Option String) (now : Nat) :
    (∀ t, s.tasks.find? (fun u => u.id == task_id) = some t →
      ∃ s2, complete_task s task_id result now =
        .ok ({ t with status := .completed, result := result,
                      updated_at := now }, s2)) ∧
    (s.tasks.find? (fun u => u.id == task_id) = none →
      complete_task s task_id result now =
        .error (.invalidOperation ("Task not found: " ++ task_id))) := by
  constructor
  · intro t ht
    unfold complete_task
    rw [ht]
    exact ⟨_, rfl⟩
  · intro h
    unfold complete_task
    rw [h]

/-- Witness for C4: re-completing the already Completed fixture task
stores the new result. -/
theorem complete_task_unconditional_witness :
    ∃ s2, complete_task sampleState "task-a" (some "done") 5 =
      .ok ({ taskA with
             status := .completed,
             result := some "done",
             updated_at := 5 }, s2) :=
  (complete_task_unconditional sampleState "task-a" (some "done") 5).1
    taskA (by decide)

/-- C3: add_task whose dependency ids all reference existing tasks
succeeds, appending a task whose status is Pending when the dependency
list is empty or every referenced task is Completed and Blocked
otherwise; add_task with any unknown dependency id fails. -/
theorem add_task_spec (s : TeamStateData) (title : String)
    (deps : List String) (taskId : String) (now : Nat) :
    ((∀ d ∈ deps, s.tasks.any (fun t => t.id == d) = true) →
      ∃ t s2, add_task s title deps taskId now = .ok (t, s2) ∧
        s2.tasks = s.tasks ++ [t] ∧
        t.depends_on = deps ∧
        t.status = (if deps = [] ∨ (∀ d ∈ deps,
            s.tasks.any (fun u => u.id == d &&
              u.status == TaskStatus.completed) = true)
          then TaskStatus.pending else TaskStatus.blocked)) ∧
    ((∃ d ∈ deps, s.tasks.any (fun t => t.id == d) = false) →
      ∃ m, add_task s title deps taskId now =
        .error (.invalidOperation m)) := by
  constructor
  · intro h
    have hfind : deps.find?
        (fun d => !(s.tasks.any (fun t => t.id == d))) = none := by
      rw [List.find?_eq_none]
      intro d hd
      simp [h d hd]
    rw [add_task, hfind]
    refine ⟨_, _, rfl, rfl, rfl, ?_⟩
    by_cases hc : deps = [] ∨ (∀ d ∈ deps,
        s.tasks.any (fun u => u.id == d &&
          u.status == TaskStatus.completed) = true)
    · rw [if_pos hc]
      have : (deps.isEmpty || deps.all (fun d =>
          s.tasks.any (fun t => t.id == d &&
            t.status == TaskStatus.completed))) = true := by
        rcases hc with hc | hc
        · simp [hc]
        · simp only [Bool.or_eq_true, List.all_eq_true]
          exact Or.inr hc
      simp [this]
    · rw [if_neg hc]
      have : (deps.isEmpty || deps.all (fun d =>
          s.tasks.any (fun t => t.id == d &&
            t.status == TaskStatus.completed))) = false := by
        rw [Bool.or_eq_false_iff]
        constructor
        · rw [List.isEmpty_eq_false_iff_exists_mem]
          by_contra hne
          push_neg at hne
          exact hc (Or.inl (List.eq_nil_iff_forall_not_mem.mpr hne))
        · by_contra hall
          rw [Bool.not_eq_false, List.all_eq_true] at hall
          exact hc (Or.inr hall)
      simp [this]
  · intro ⟨d, hd, hany⟩
    have hsome : (deps.find?
        (fun d => !(s.tasks.any (fun t => t.id == d)))).isSome := by
      rw [List.find?_isSome]
      exact ⟨d, hd, by simp [hany]⟩
    obtain ⟨d0, hd0⟩ := Option.isSome_iff_exists.mp hsome
    rw [add_task, hd0]
    exact ⟨_, rfl⟩

/-- Witness for C3: a task depending on the Pending fixture task comes
out Blocked, and a dependency on an unknown id is rejected. -/
theorem add_task_spec_witness :
    (∃ t s2, add_task sampleState "D" ["task-c"] "task-d" 9 = .ok (t, s2) ∧
      s2.tasks = sampleState.tasks ++ [t] ∧
      t.depends_on = ["task-c"] ∧
      t.status = (if (["task-c"] : List String) = [] ∨ (∀ d ∈ (["task-c"] : List String),
          sampleState.tasks.any (fun u => u.id == d &&
            u.status == TaskStatus.completed) = true)
        then TaskStatus.pending else TaskStatus.blocked)) ∧
    (∃ m, add_task sampleState "E" ["nope"] "task-e" 9 =
      .error (.invalidOperation m)) :=
  ⟨(add_task_spec sampleState "D" ["task-c"] "task-d" 9).1 (by decide),
   (add_task_spec sampleState "E" ["nope"] "task-e" 9).2
     ⟨"nope", by decide, by decide⟩⟩

/-- C2: claim_task fails when the assignee matches no agent by id or
name or the task id matches no task; with a valid assignee, claiming a
Blocked or Completed task always fails with InvalidOperation, while
claiming a Pending or InProgress task always succeeds, setting the
status to InProgress and overwriting the assignee with the given value. -/
theorem claim_task_status_machine (s : TeamStateData)
    (task_id assignee_id : String) (now : Nat) :
    (s.agents.any (fun a => a.id == assignee_id ||
        a.name == assignee_id) = false →
      ∃ m, claim_task s task_id assignee_id now =
        .error (.invalidOperation m)) ∧
    (s.agents.any (fun a => a.id == assignee_id ||
        a.name == assignee_id) = true →
      (s.tasks.find? (fun t => t.id == task_id) = none →
        ∃ m, claim_task s task_id assignee_id now =
          .error (.invalidOperation m)) ∧
      (∀ t, s.tasks.find? (fun t => t.id == task_id) = some t →
        ((t.status = TaskStatus.blocked ∨ t.status = TaskStatus.completed) →
          ∃ m, claim_task s task_id assignee_id now =
            .error (.invalidOperation m)) ∧
        ((t.status = TaskStatus.pending ∨ t.status = TaskStatus.inProgress) →
          ∃ s2, claim_task s task_id assignee_id now =
            .ok ({ t with
                   status := .inProgress,
                   assignee_id := some assignee_id,
                   updated_at := now }, s2) ∧
            s2.tasks = updateFirst (fun u => u.id == task_id)
              (fun u => { u with
                          status := .inProgress,
                          assignee_id := some assignee_id,
                          updated_at := now }) s.tasks))) := by
  constructor
  · intro hany
    refine ⟨"Assignee is not a team member: " ++ assignee_id, ?_⟩
    simp [claim_task, hany]
  · intro hany
    constructor
    · intro hnone
      refine ⟨"Task not found: " ++ task_id, ?_⟩
      simp [claim_task, hany, hnone]
    · intro t ht
      constructor
      · intro hst
        rcases hst with hst | hst
        · refine ⟨"Cannot claim a blocked task", ?_⟩
          simp [claim_task, hany, ht, hst]
        · refine ⟨"Cannot claim a completed task", ?_⟩
          simp [claim_task, hany, ht, hst]
      · intro hst
        have hnb : ¬ t.status = TaskStatus.blocked := by
          rcases hst with h | h <;> (rw [h]; intro hh; exact absurd hh (by decide))
        have hnc : ¬ t.status = TaskStatus.completed := by
          rcases hst with h | h <;> (rw [h]; intro hh; exact absurd hh (by decide))
        simp only [claim_task, hany, ht, if_true, if_neg hnb, if_neg hnc]
        exact ⟨_, rfl, rfl⟩

/-- Witness for C2: re-claiming the Pending fixture task for the worker
succeeds and assigns it. -/
theorem claim_task_status_machine_witness :
    ∃ s2, claim_task sampleState "task-c" "worker" 4 =
      .ok ({ taskC with
             status := .inProgress,
             assignee_id := some "worker",
             updated_at := 4 }, s2) ∧
      s2.tasks = updateFirst (fun u => u.id == "task-c")
        (fun u => { u with
                    status := .inProgress,
                    assignee_id := some "worker",
                    updated_at := 4 }) sampleState.tasks :=
  (((claim_task_status_machine sampleState "task-c" "worker" 4).2
      (by decide)).2 taskC (by decide)).2 (Or.inl (by decide))

/-- C6: assert_cleanup_allowed succeeds exactly when no role-Teammate
agent has a status other than Shutdown, and otherwise fails with an
InvalidOperation message listing the names of exactly those agents;
cleanup on a resident aggregate clears the in-memory aggregate and
removes the snapshot file named after the sanitized team name. -/
theorem cleanup_gating (s : TeamStateData) (store : Store) :
    (assert_cleanup_allowed s = .ok () ↔ activeTeammates s = []) ∧
    (activeTeammates s ≠ [] →
      assert_cleanup_allowed s = .error (.invalidOperation
        ("Cannot cleanup team while teammates are active: " ++
         String.intercalate ", " (activeTeammates s) ++
         ". Shut them down first."))) ∧
    (∀ st safe, store.data = some st →
      sanitize_team_name st.team = .ok safe →
      cleanup_store store = (.ok (),
        { data := none,
          disk := store.disk.filter (fun e => e.1 != safe ++ ".json") })) := by
  refine ⟨?_, ?_, ?_⟩
  · constructor
    · intro h
      by_contra hne
      rw [assert_cleanup_allowed] at h
      simp only [List.isEmpty_iff] at h
      rw [if_neg hne] at h
      exact absurd h (by simp)
    · intro h
      rw [assert_cleanup_allowed]
      simp only [List.isEmpty_iff]
      rw [if_pos h]
  · intro hne
    rw [assert_cleanup_allowed]
    simp only [List.isEmpty_iff]
    rw [if_neg hne]
  · intro st safe hdata hsan
    simp [cleanup_store, hdata, hsan]

/-- Witness for C6: the fixture team has one non-Shutdown teammate named
worker and cleanup of a resident store clears memory and the snapshot. -/
theorem cleanup_gating_witness :
    assert_cleanup_allowed sampleState = .error (.invalidOperation
      ("Cannot cleanup team while teammates are active: " ++
       String.intercalate ", " (activeTeammates sampleState) ++
       ". Shut them down first.")) ∧
    cleanup_store { data := some sampleState, disk := [("proj.json", sampleState)] } =
      (.ok (),
       { data := none,
         disk := (([("proj.json", sampleState)] :
             List (String × TeamStateData)).filter
           (fun e => e.1 != "proj" ++ ".json")) }) :=
  ⟨(cleanup_gating sampleState
      { data := some sampleState, disk := [] }).2.1 (by decide),
   (cleanup_gating sampleState
      { data := some sampleState, disk := [("proj.json", sampleState)] }).2.2
     sampleState "proj" rfl rfl⟩

/-- A sanitized name sanitizes again: the output of sanitize_team_name is
never empty, never a dot and never a dot-dot, so persisting a state whose
team field came out of sanitize_team_name cannot fail validation. -/
theorem sanitize_team_name_idem (name safe : String)
    (h : sanitize_team_name name = .ok safe) :
    ∃ safe2, sanitize_team_name safe = .ok safe2 := by
  by_cases h1 : name = ""
  · subst h1
    simp [sanitize_team_name] at h
  · by_cases h2 : name = "." ∨ name = ".."
    · rw [sanitize_team_name, if_neg h1, if_pos h2] at h
      exact absurd h (by simp)
    · rw [sanitize_team_name, if_neg h1, if_neg h2] at h
      have hsafe : safe = String.mk (name.data.map sanitizeChar) := by
        injection h with h
        exact h.symm
      have hnodot : ∀ c ∈ safe.data, c ≠ '.' := by
        intro c hc
        rw [hsafe] at hc
        simp only [List.mem_map] at hc
        obtain ⟨c0, _, hc0⟩ := hc
        rw [← hc0]
        exact sanitizeChar_ne_dot c0
      have hs1 : safe ≠ "" := by
        intro he
        have hd : name.data = [] := by
          have : safe.data = [] := by rw [he]
          rw [hsafe] at this
          exact List.map_eq_nil_iff.mp this
        exact h1 (by
          cases name with
          | mk l => cases hd; rfl)
      have hs2 : ¬ (safe = "." ∨ safe = "..") := by
        intro hor
        rcases hor with hh | hh
        · exact hnodot '.' (by rw [hh]; decide) rfl
        · exact hnodot '.' (by rw [hh]; decide) rfl
      exact ⟨String.mk (safe.data.map sanitizeChar),
        by rw [sanitize_team_name, if_neg hs1, if_neg hs2]⟩

/-- C7 (amended): for every mutating operation on an existing aggregate,
a snapshot write failure returns an I/O error while the in-memory
aggregate keeps the mutation — memory is left ahead of the unchanged
disk; create_team is the exception: it persists before installing the
aggregate, so a failed write leaves the in-memory aggregate empty and
the store untouched. -/
theorem persist_failure_memory_ahead (store : Store) (op : StoreOp)
    (s s2 : TeamStateData) (safe : String)
    (hmem : store.data = some s) (hok : applyOpE op s = .ok s2)
    (hsan : sanitize_team_name s2.team = .ok safe) :
    runOpStore store op false =
      (.error .ioError, { data := some s2, disk := store.disk }) ∧
    (∀ st name lead id now safe2, Store.data st = none →
      sanitize_team_name name = .ok safe2 →
      create_team_store st name lead id now false = (.error .ioError, st)) := by
  constructor
  · simp [runOpStore, mutateThenPersist, hmem, hok, persist_inner, hsan]
  · intro st name lead id now safe2 hnone hsan2
    obtain ⟨safe3, hsafe3⟩ :=
      sanitize_team_name_idem name safe2 hsan2
    simp [create_team_store, hsan2, hnone, persist_inner, initialState,
      hsafe3]

/-- Counterexample to C7 as stated: create_team with a failing snapshot
write returns an I/O error, but the in-memory aggregate has not been
mutated — it is still empty — so memory is not ahead of disk for
create_team. -/
theorem create_team_persist_failure_no_mutation :
    (create_team_store { data := none, disk := [] } "proj" "lead"
      "agent-1" 0 false).1 = .error .ioError ∧
    (create_team_store { data := none, disk := [] } "proj" "lead"
      "agent-1" 0 false).2.data = none := by
  exact ⟨rfl, rfl⟩

/-- Witness for C7 (amended): a failing write during send_message leaves
the appended message in memory while the disk is unchanged. -/
theorem persist_failure_memory_ahead_witness :
    runOpStore { data := some sampleState, disk := [] }
      (.sendMessage "a" "b" "hi" "msg-1" 3) false =
      (.error .ioError,
       { data := some { sampleState with
           messages := [{ id := "msg-1", from_ := "a", to_ := "b",
                          body := "hi", created_at := 3 }],
           updated_at := 3 },
         disk := [] }) :=
  (persist_failure_memory_ahead { data := some sampleState, disk := [] }
    (.sendMessage "a" "b" "hi" "msg-1" 3) sampleState
    { sampleState with
      messages := [{ id := "msg-1", from_ := "a", to_ := "b",
                     body := "hi", created_at := 3 }],
      updated_at := 3 }
    "proj" rfl rfl rfl).1

/-- Length of the broadcast message list: one message per recipient. -/
theorem mkBroadcastMsgs_length (genId : Nat → String) (from_ body : String)
    (now : Nat) (i : Nat) (l : List TeamAgent) :
    (mkBroadcastMsgs genId from_ body now i l).length = l.length := by
  induction l generalizing i with
  | nil => rfl
  | cons a rest ih =>
    simp [mkBroadcastMsgs, ih]

/-- Pointwise shape of the broadcast message list. -/
theorem mkBroadcastMsgs_getElem? (genId : Nat → String)
    (from_ body : String) (now : Nat) (i j : Nat) (l : List TeamAgent)
    (a : TeamAgent) (h : l[j]? = some a) :
    (mkBroadcastMsgs genId from_ body now i l)[j]? =
      some { id := genId (i + j), from_ := from_, to_ := a.id,
             body := body, created_at := now } := by
  induction l generalizing i j with
  | nil => simp at h
  | cons x rest ih =>
    cases j with
    | zero =>
      simp at h
      subst h
      simp [mkBroadcastMsgs]
    | succ j =>
      simp at h
      have := ih (i + 1) j h
      simp only [mkBroadcastMsgs, List.getElem?_cons_succ]
      rw [this]
      have harith : i + 1 + j = i + (j + 1) := by omega
      rw [harith]

/-- C8: broadcast appends and returns exactly one message per agent whose
status is not Shutdown and who is not the lead, in board order, each
message carrying the given sender and body. -/
theorem broadcast_message_spec (s : TeamStateData) (from_ body : String)
    (genId : Nat → String) (now : Nat) :
    (broadcast_message s from_ body genId now).1.length =
      (s.agents.filter (fun a => a.status != TeamAgentStatus.shutdown &&
        a.id != s.lead_id)).length ∧
    (∀ (j : Nat) (a : TeamAgent), (s.agents.filter (fun a =>
        a.status != TeamAgentStatus.shutdown && a.id != s.lead_id))[j]? =
          some a →
      ∃ msg : TeamMessage,
        (broadcast_message s from_ body genId now).1[j]? = some msg ∧
        msg.from_ = from_ ∧ msg.body = body ∧ msg.to_ = a.id) ∧
    (broadcast_message s from_ body genId now).2.messages =
      s.messages ++ (broadcast_message s from_ body genId now).1 := by
  refine ⟨?_, ?_, rfl⟩
  · exact mkBroadcastMsgs_length genId from_ body now 0 _
  · intro j a hj
    exact ⟨_, mkBroadcastMsgs_getElem? genId from_ body now 0 j _ a hj,
      rfl, rfl, rfl⟩

/-- Witness for C8: broadcasting to the fixture team produces exactly one
message, addressed to the worker. -/
theorem broadcast_message_spec_witness :
    ∃ msg : TeamMessage, (broadcast_message sampleState "lead" "standup"
        (fun n => "msg-" ++ toString n) 6).1[0]? = some msg ∧
      msg.from_ = "lead" ∧ msg.body = "standup" ∧ msg.to_ = agentW.id :=
  (broadcast_message_spec sampleState "lead" "standup"
    (fun n => "msg-" ++ toString n) 6).2.1 0 agentW (by decide)

/-- C1: when a task with the given id is present, complete_task marks it
Completed and then re-scans the whole board. Among the tasks as they
stand after that marking, exactly those whose status is Blocked, whose
dependency list is non-empty and every one of whose dependencies is the
id of some Completed task (a set that includes the just-completed task)
are set to Pending; every other task keeps its status. -/
theorem complete_task_cascade (s : TeamStateData) (task_id : String)
    (result : Option String) (now : Nat) (t : TeamTask)
    (hfind : s.tasks.find? (fun u => u.id == task_id) = some t) :
    ∃ s2, complete_task s task_id result now =
      .ok ({ t with
             status := .completed,
             result := result,
             updated_at := now }, s2) ∧
      s2.tasks =
        (markCompleted s.tasks task_id result now).map (fun u =>
          if u.status = TaskStatus.blocked ∧ u.depends_on ≠ [] ∧
              (∀ d ∈ u.depends_on,
                ∃ v ∈ markCompleted s.tasks task_id result now,
                  v.status = TaskStatus.completed ∧ v.id = d)
          then { u with status := .pending, updated_at := now }
          else u) := by
  refine ⟨{ s with
            tasks := cascade_unblock
              (markCompleted s.tasks task_id result now) now
            updated_at := now }, ?_, ?_⟩
  · unfold complete_task
    rw [hfind]
  · show cascade_unblock (markCompleted s.tasks task_id result now) now = _
    unfold cascade_unblock
    apply List.map_congr_left
    intro u _
    refine if_congr ?_ rfl rfl
    constructor
    · intro hb
      simp only [Bool.and_eq_true, beq_iff_eq, Bool.not_eq_true',
        List.isEmpty_eq_false_iff_exists_mem, List.all_eq_true,
        List.contains_iff_exists_mem_beq] at hb
      obtain ⟨⟨hst, hne⟩, hall⟩ := hb
      refine ⟨hst, ?_, ?_⟩
      · obtain ⟨x, hx⟩ := hne
        intro hnil
        rw [hnil] at hx
        exact absurd hx (by simp)
      · intro d hd
        obtain ⟨e, he, hbe⟩ := hall d hd
        simp only [List.mem_map, List.mem_filter, beq_iff_eq] at he
        obtain ⟨v, ⟨hv, hvc⟩, hvid⟩ := he
        refine ⟨v, hv, hvc, ?_⟩
        rw [hvid]
        exact hbe.symm
    · intro ⟨hst, hne, hall⟩
      simp only [Bool.and_eq_true, beq_iff_eq, Bool.not_eq_true',
        List.isEmpty_eq_false_iff_exists_mem, List.all_eq_true,
        List.contains_iff_exists_mem_beq]
      refine ⟨⟨hst, ?_⟩, ?_⟩
      · exact List.exists_mem_of_ne_nil _ hne
      · intro d hd
        obtain ⟨v, hv, hvc, hvid⟩ := hall d hd
        refine ⟨v.id, ?_, ?_⟩
        · simp only [List.mem_map, List.mem_filter, beq_iff_eq]
          exact ⟨v, ⟨hv, hvc⟩, rfl⟩
        · rw [hvid]

/-- Witness for C1: completing the fixture task C makes the Blocked
fixture task B (whose single dependency, task A, is Completed) become
Pending, while the other tasks keep their statuses. -/
theorem complete_task_cascade_witness :
    ∃ s2, complete_task sampleState "task-c" none 8 =
      .ok ({ taskC with
             status := .completed,
             result := none,
             updated_at := 8 }, s2) ∧
      s2.tasks =
        (markCompleted sampleState.tasks "task-c" none 8).map (fun u =>
          if u.status = TaskStatus.blocked ∧ u.depends_on ≠ [] ∧
              (∀ d ∈ u.depends_on,
                ∃ v ∈ markCompleted sampleState.tasks "task-c" none 8,
                  v.status = TaskStatus.completed ∧ v.id = d)
          then { u with status := .pending, updated_at := 8 }
          else u) :=
  complete_task_cascade sampleState "task-c" none 8 taskC (by decide)

/-! ### Status preservation across operations (for the monotonicity claim) -/

/-- updateFirst leaves an element in place, or replaces it by its image
under f; in the latter case the element is the one find? returns. -/
theorem updateFirst_getElem? (p : α → Bool) (f : α → α) (l : List α)
    (i : Nat) (a : α) (h : l[i]? = some a) :
    (updateFirst p f l)[i]? = some a ∨
      ((updateFirst p f l)[i]? = some (f a) ∧ l.find? p = some a) := by
  induction l generalizing i with
  | nil => simp at h
  | cons x xs ih =>
    unfold updateFirst
    by_cases hp : p x
    · rw [if_pos hp]
      cases i with
      | zero =>
        simp at h
        subst h
        right
        exact ⟨by simp, by rw [List.find?_cons_of_pos _ hp]⟩
      | succ i =>
        simp at h ⊢
        left
        exact h
    · rw [if_neg hp]
      cases i with
      | zero =>
        simp at h
        subst h
        left
        simp
      | succ i =>
        simp only [List.getElem?_cons_succ] at h ⊢
        rcases ih i h with h1 | ⟨h1, h2⟩
        · left
          exact h1
        · right
          exact ⟨h1, by rw [List.find?_cons_of_neg _ hp]; exact h2⟩

/-- Index-wise preservation of Completed tasks: a Completed task stays at
its index, keeps its id and stays Completed. -/
def preservesCompleted (old new : List TeamTask) : Prop :=
  ∀ (i : Nat) (t : TeamTask), old[i]? = some t →
    t.status = TaskStatus.completed →
    ∃ t2 : TeamTask, new[i]? = some t2 ∧ t2.id = t.id ∧
      t2.status = TaskStatus.completed

/-- Index-wise preservation of Blocked tasks. -/
def preservesBlocked (old new : List TeamTask) : Prop :=
  ∀ (i : Nat) (t : TeamTask), old[i]? = some t →
    t.status = TaskStatus.blocked →
    ∃ t2 : TeamTask, new[i]? = some t2 ∧ t2.id = t.id ∧
      t2.status = TaskStatus.blocked

/-- Reflexivity of Completed preservation. -/
theorem preservesCompleted_refl (l : List TeamTask) :
    preservesCompleted l l :=
  fun _ t h hc => ⟨t, h, rfl, hc⟩

/-- Reflexivity of Blocked preservation. -/
theorem preservesBlocked_refl (l : List TeamTask) : preservesBlocked l l :=
  fun _ t h hb => ⟨t, h, rfl, hb⟩

/-- Transitivity of Completed preservation. -/
theorem preservesCompleted_trans {a b c : List TeamTask}
    (h1 : preservesCompleted a b) (h2 : preservesCompleted b c) :
    preservesCompleted a c := by
  intro i t h hc
  obtain ⟨t2, hb, hid, hc2⟩ := h1 i t h hc
  obtain ⟨t3, hcc, hid3, hc3⟩ := h2 i t2 hb hc2
  exact ⟨t3, hcc, hid3.trans hid, hc3⟩

/-- Marking then cascading preserves Completed tasks index-wise. -/
theorem complete_task_preservesCompleted (tasks : List TeamTask)
    (task_id : String) (result : Option String) (now : Nat) :
    preservesCompleted tasks
      (cascade_unblock (markCompleted tasks task_id result now) now) := by
  intro i t h hc
  have hmark : ∃ w, (markCompleted tasks task_id result now)[i]? = some w ∧
      w.id = t.id ∧ w.status = TaskStatus.completed := by
    rcases updateFirst_getElem? _ _ tasks i t h with h1 | ⟨h1, _⟩
    · exact ⟨t, h1, rfl, hc⟩
    · exact ⟨_, h1, rfl, rfl⟩
  obtain ⟨w, hw, hwid, hwc⟩ := hmark
  refine ⟨w, ?_, hwid, hwc⟩
  unfold cascade_unblock
  rw [List.getElem?_map, hw]
  have : (w.status == TaskStatus.blocked) = false := by
    rw [hwc]
    rfl
  simp [this]

/-- claim_task on a success path does not touch Completed tasks: the
updated element is the found one, which is neither Blocked nor
Completed. -/
theorem claim_task_preservesCompleted (s : TeamStateData)
    (task_id assignee_id : String) (now : Nat) (t : TeamTask)
    (hf : s.tasks.find? (fun u => u.id == task_id) = some t)
    (hnc : t.status ≠ TaskStatus.completed) :
    preservesCompleted s.tasks
      (updateFirst (fun u => u.id == task_id)
        (fun u => { u with
                    status := .inProgress,
                    assignee_id := some assignee_id,
                    updated_at := now }) s.tasks) := by
  intro i u h hu
  rcases updateFirst_getElem? _ _ s.tasks i u h with h1 | ⟨h1, h2⟩
  · exact ⟨u, h1, rfl, hu⟩
  · rw [hf] at h2
    injection h2 with h2
    subst h2
    exact absurd hu hnc

/-- claim_task on a success path does not touch Blocked tasks either. -/
theorem claim_task_preservesBlocked (s : TeamStateData)
    (task_id assignee_id : String) (now : Nat) (t : TeamTask)
    (hf : s.tasks.find? (fun u => u.id == task_id) = some t)
    (hnb : t.status ≠ TaskStatus.blocked) :
    preservesBlocked s.tasks
      (updateFirst (fun u => u.id == task_id)
        (fun u => { u with
                    status := .inProgress,
                    assignee_id := some assignee_id,
                    updated_at := now }) s.tasks) := by
  intro i u h hu
  rcases updateFirst_getElem? _ _ s.tasks i u h with h1 | ⟨h1, h2⟩
  · exact ⟨u, h1, rfl, hu⟩
  · rw [hf] at h2
    injection h2 with h2
    subst h2
    exact absurd hu hnb

/-- Appending tasks preserves every index of the original list. -/
theorem getElem?_append_of_lt (l l2 : List α) (i : Nat) (a : α)
    (h : l[i]? = some a) : (l ++ l2)[i]? = some a := by
  have hlt : i < l.length := by
    by_contra hge
    push_neg at hge
    rw [List.getElem?_eq_none hge] at h
    exact absurd h (by simp)
  rw [List.getElem?_append, if_pos hlt]
  exact h

/-- Master case analysis: every operation leaves the task list unchanged,
appends one validated task, claims a found non-Blocked non-Completed
task in place, or is complete_task and runs mark-and-cascade. -/
theorem applyOp_tasks_cases (s : TeamStateData) (op : StoreOp) :
    (applyOp s op).tasks = s.tasks ∨
    (∃ t : TeamTask, (applyOp s op).tasks = s.tasks ++ [t] ∧
      (∀ d ∈ t.depends_on, ∃ u ∈ s.tasks, u.id = d) ∧
      (∃ title : String, ∃ deps : List String, ∃ now : Nat,
        op = .addTask title deps t.id now)) ∨
    (∃ task_id assignee_id : String, ∃ now : Nat, ∃ t : TeamTask,
      s.tasks.find? (fun u => u.id == task_id) = some t ∧
      t.status ≠ TaskStatus.blocked ∧ t.status ≠ TaskStatus.completed ∧
      (applyOp s op).tasks = updateFirst (fun u => u.id == task_id)
        (fun u => { u with
                    status := .inProgress,
                    assignee_id := some assignee_id,
                    updated_at := now }) s.tasks) ∨
    (∃ task_id : String, ∃ result : Option String, ∃ now : Nat,
      op = .completeTask task_id result now ∧
      (applyOp s op).tasks =
        cascade_unblock (markCompleted s.tasks task_id result now) now) := by
  cases op with
  | addAgent n r th m id now => exact Or.inl rfl
  | bindLeadThread th now =>
    left
    cases hf : s.agents.find? (fun a => a.id == s.lead_id) with
    | none => simp [applyOp, applyOpE, bind_lead_thread, hf, Except.map]
    | some lead => simp [applyOp, applyOpE, bind_lead_thread, hf, Except.map]
  | addTask title deps tid now =>
    cases hfd : deps.find? (fun d => !(s.tasks.any (fun t => t.id == d))) with
    | some d =>
      left
      simp [applyOp, applyOpE, add_task, hfd, Except.map]
    | none =>
      right; left
      refine ⟨{ id := tid, title := title,
                status := if deps.isEmpty || deps.all (fun d =>
                    s.tasks.any (fun t => t.id == d &&
                      t.status == TaskStatus.completed))
                  then TaskStatus.pending else TaskStatus.blocked,
                assignee_id := none, result := none, depends_on := deps,
                created_at := now, updated_at := now }, ?_, ?_,
              title, deps, now, rfl⟩
      · simp [applyOp, applyOpE, add_task, hfd, Except.map]
      · intro d hd
        have hne := List.find?_eq_none.mp hfd d hd
        simp only [Bool.not_eq_true', Bool.not_eq_false] at hne
        simp only [List.any_eq_true, beq_iff_eq] at hne
        obtain ⟨u, hu, hud⟩ := hne
        exact ⟨u, hu, hud⟩
  | claimTask tid asg now =>
    by_cases hany : s.agents.any (fun a => a.id == asg || a.name == asg)
    · cases hf : s.tasks.find? (fun u => u.id == tid) with
      | none =>
        left
        simp [applyOp, applyOpE, claim_task, hany, hf, Except.map]
      | some t =>
        by_cases hb : t.status = TaskStatus.blocked
        · left
          simp [applyOp, applyOpE, claim_task, hany, hf, hb, Except.map]
        · by_cases hc : t.status = TaskStatus.completed
          · left
            simp [applyOp, applyOpE, claim_task, hany, hf, hb, hc,
              Except.map]
          · right; right; left
            refine ⟨tid, asg, now, t, hf, hb, hc, ?_⟩
            simp [applyOp, applyOpE, claim_task, hany, hf, hb, hc,
              Except.map]
    · left
      simp [applyOp, applyOpE, claim_task, hany, Except.map]
  | completeTask tid res now =>
    cases hf : s.tasks.find? (fun u => u.id == tid) with
    | none =>
      left
      simp [applyOp, applyOpE, complete_task, hf, Except.map]
    | some t =>
      right; right; right
      refine ⟨tid, res, now, rfl, ?_⟩
      simp [applyOp, applyOpE, complete_task, hf, Except.map]
  | sendMessage f t b id now => exact Or.inl rfl
  | broadcast f b g now => exact Or.inl rfl
  | updateAgentStatus a st now =>
    left
    cases hf : s.agents.find? (fun x => x.id == a || x.name == a) with
    | none => simp [applyOp, applyOpE, update_agent_status, hf, Except.map]
    | some x => simp [applyOp, applyOpE, update_agent_status, hf, Except.map]

/-- Every single operation preserves Completed tasks index-wise. -/
theorem applyOp_preservesCompleted (s : TeamStateData) (op : StoreOp) :
    preservesCompleted s.tasks (applyOp s op).tasks := by
  rcases applyOp_tasks_cases s op with h | ⟨t, h, _, _⟩ |
    ⟨tid, asg, now, t, hf, _, hc, h⟩ | ⟨tid, res, now, _, h⟩
  · rw [h]
    exact preservesCompleted_refl _
  · rw [h]
    intro i u hu huc
    exact ⟨u, getElem?_append_of_lt _ _ i u hu, rfl, huc⟩
  · rw [h]
    exact claim_task_preservesCompleted s tid asg now t hf hc
  · rw [h]
    exact complete_task_preservesCompleted s.tasks tid res now

/-- Every operation other than complete_task preserves Blocked tasks
index-wise. -/
theorem applyOp_preservesBlocked (s : TeamStateData) (op : StoreOp)
    (hop : ∀ (task_id : String) (result : Option String) (now : Nat),
      op ≠ StoreOp.completeTask task_id result now) :
    preservesBlocked s.tasks (applyOp s op).tasks := by
  rcases applyOp_tasks_cases s op with h | ⟨t, h, _, _⟩ |
    ⟨tid, asg, now, t, hf, hb, _, h⟩ | ⟨tid, res, now, hop2, h⟩
  · rw [h]
    exact preservesBlocked_refl _
  · rw [h]
    intro i u hu hub
    exact ⟨u, getElem?_append_of_lt _ _ i u hu, rfl, hub⟩
  · rw [h]
    exact claim_task_preservesBlocked s tid asg now t hf hb
  · exact absurd hop2 (hop tid res now)

/-- Completed tasks are preserved by every operation sequence. -/
theorem applySeq_preservesCompleted (ops : List StoreOp)
    (s : TeamStateData) :
    preservesCompleted s.tasks (applySeq s ops).tasks := by
  induction ops generalizing s with
  | nil => exact preservesCompleted_refl _
  | cons op rest ih =>
    exact preservesCompleted_trans (applyOp_preservesCompleted s op)
      (ih (applyOp s op))

/-- C5: across every sequence of store operations a Completed task keeps
its index, its id and its Completed status; every operation other than
complete_task preserves every Blocked task unchanged in status; and
claim_task on a Blocked task is always rejected. -/
theorem completed_monotonic_blocked_stable (s : TeamStateData) :
    (∀ ops : List StoreOp,
      preservesCompleted s.tasks (applySeq s ops).tasks) ∧
    (∀ op : StoreOp, (∀ (task_id : String) (result : Option String)
        (now : Nat), op ≠ StoreOp.completeTask task_id result now) →
      preservesBlocked s.tasks (applyOp s op).tasks) ∧
    (∀ (task_id assignee_id : String) (now : Nat) (t : TeamTask),
      s.tasks.find? (fun u => u.id == task_id) = some t →
      t.status = TaskStatus.blocked →
      ∃ m, claim_task s task_id assignee_id now =
        .error (.invalidOperation m)) := by
  refine ⟨fun ops => applySeq_preservesCompleted ops s,
          fun op hop => applyOp_preservesBlocked s op hop, ?_⟩
  intro task_id assignee_id now t hf hb
  by_cases hany : s.agents.any (fun a =>
      a.id == assignee_id || a.name == assignee_id)
  · refine ⟨"Cannot claim a blocked task", ?_⟩
    simp [claim_task, hany, hf, hb]
  · refine ⟨"Assignee is not a team member: " ++ assignee_id, ?_⟩
    simp [claim_task, hany]

/-- Witness for C5: after claiming fixture task C, the Completed fixture
task A and the Blocked fixture task B are untouched, and claiming the
Blocked task B is rejected. -/
theorem completed_monotonic_blocked_stable_witness :
    (∃ t2 : TeamTask,
      (applySeq sampleState [.claimTask "task-c" "worker" 4]).tasks[0]? =
        some t2 ∧ t2.id = taskA.id ∧
        t2.status = TaskStatus.completed) ∧
    (∃ t2 : TeamTask,
      (applyOp sampleState (.claimTask "task-c" "worker" 4)).tasks[1]? =
        some t2 ∧ t2.id = taskB.id ∧ t2.status = TaskStatus.blocked) ∧
    (∃ m, claim_task sampleState "task-b" "worker" 4 =
      .error (.invalidOperation m)) :=
  ⟨(completed_monotonic_blocked_stable sampleState).1
      [.claimTask "task-c" "worker" 4] 0 taskA (by decide) (by decide),
   (completed_monotonic_blocked_stable sampleState).2.1
      (.claimTask "task-c" "worker" 4)
      (by intro a b c h; exact StoreOp.noConfusion h) 1 taskB
      (by decide) (by decide),
   (completed_monotonic_blocked_stable sampleState).2.2 "task-b" "worker"
      4 taskB (by decide) (by decide)⟩

/-! ### The task dependency graph of reachable aggregates -/

/-- The dependency edge relation of a task list: a depends on b when
some task with id a lists b among its dependencies. -/
def DepEdge (tasks : List TeamTask) (a b : String) : Prop :=
  ∃ t ∈ tasks, t.id = a ∧ b ∈ t.depends_on

/-- Every dependency of a task at index i is the id of a task at a
strictly earlier index. -/
def DepsEarlier (tasks : List TeamTask) : Prop :=
  ∀ (i : Nat) (t : TeamTask), tasks[i]? = some t →
    ∀ d ∈ t.depends_on,
      ∃ (j : Nat) (u : TeamTask), j < i ∧ tasks[j]? = some u ∧ u.id = d

/-- The task ids of the board are pairwise distinct. -/
def TaskIdsNodup (tasks : List TeamTask) : Prop :=
  (tasks.map (fun t => t.id)).Nodup

/-- The dependency-relevant projection of a task list: ids and
dependency lists only. -/
def projTasks (tasks : List TeamTask) : List (String × List String) :=
  tasks.map (fun t => (t.id, t.depends_on))

/-- Freshness of the runtime-generated inputs of an operation: the id
generated for a new task differs from every existing task id. -/
def freshOk (s : TeamStateData) : StoreOp → Prop
  | .addTask _ _ taskId _ => ∀ t ∈ s.tasks, t.id ≠ taskId
  | _ => True

/-- Aggregates reachable through the public store operations from a
freshly created team, assuming every generated task id is fresh. -/
inductive Reachable : TeamStateData → Prop
  | init (safe lead_name lead_id : String) (now : Nat) :
      Reachable (initialState safe lead_name lead_id now)
  | step (s : TeamStateData) (op : StoreOp) :
      Reachable s → freshOk s op → Reachable (applyOp s op)

/-- updateFirst with an id- and dependency-preserving function does not
change the dependency projection. -/
theorem projTasks_updateFirst (p : TeamTask → Bool)
    (f : TeamTask → TeamTask)
    (hf : ∀ u, (f u).id = u.id ∧ (f u).depends_on = u.depends_on)
    (l : List TeamTask) : projTasks (updateFirst p f l) = projTasks l := by
  induction l with
  | nil => rfl
  | cons x xs ih =>
    unfold updateFirst
    by_cases hp : p x
    · rw [if_pos hp]
      simp only [projTasks, List.map_cons]
      rw [(hf x).1, (hf x).2]
    · rw [if_neg hp]
      simp only [projTasks, List.map_cons] at ih ⊢
      rw [ih]

/-- Mapping an id- and dependency-preserving function does not change
the dependency projection. -/
theorem projTasks_map (g : TeamTask → TeamTask)
    (hg : ∀ u, (g u).id = u.id ∧ (g u).depends_on = u.depends_on)
    (l : List TeamTask) : projTasks (l.map g) = projTasks l := by
  unfold projTasks
  rw [List.map_map]
  apply List.map_congr_left
  intro u _
  simp [(hg u).1, (hg u).2]

/-- Marking a task Completed does not change the dependency projection. -/
theorem projTasks_markCompleted (tasks : List TeamTask) (task_id : String)
    (result : Option String) (now : Nat) :
    projTasks (markCompleted tasks task_id result now) = projTasks tasks := by
  unfold markCompleted
  apply projTasks_updateFirst
  intro u
  exact ⟨rfl, rfl⟩

/-- The cascade scan does not change the dependency projection. -/
theorem projTasks_cascade (tasks : List TeamTask) (now : Nat) :
    projTasks (cascade_unblock tasks now) = projTasks tasks := by
  unfold cascade_unblock
  apply projTasks_map
  intro u
  dsimp only
  split
  · exact ⟨rfl, rfl⟩
  · exact ⟨rfl, rfl⟩

/-- DepsEarlier transfers along equal dependency projections. -/
theorem depsEarlier_of_projTasks_eq (l l2 : List TeamTask)
    (h : projTasks l2 = projTasks l) (hd : DepsEarlier l) :
    DepsEarlier l2 := by
  intro i t ht d hdt
  have hp2 : (projTasks l2)[i]? = some (t.id, t.depends_on) := by
    simp [projTasks, List.getElem?_map, ht]
  rw [h] at hp2
  simp only [projTasks, List.getElem?_map] at hp2
  cases hli : l[i]? with
  | none => rw [hli] at hp2; exact absurd hp2 (by simp)
  | some t0 =>
    rw [hli] at hp2
    simp at hp2
    obtain ⟨hid0, hdep0⟩ := hp2
    obtain ⟨j, u, hj, hju, huid⟩ := hd i t0 hli d (by rw [hdep0]; exact hdt)
    have hpj : (projTasks l2)[j]? = some (u.id, u.depends_on) := by
      rw [h]
      simp [projTasks, List.getElem?_map, hju]
    simp only [projTasks, List.getElem?_map] at hpj
    cases hlj : l2[j]? with
    | none => rw [hlj] at hpj; exact absurd hpj (by simp)
    | some u2 =>
      rw [hlj] at hpj
      simp at hpj
      exact ⟨j, u2, hj, hlj, by rw [hpj.1, huid]⟩

/-- Distinctness of ids transfers along equal dependency projections. -/
theorem taskIdsNodup_of_projTasks_eq (l l2 : List TeamTask)
    (h : projTasks l2 = projTasks l) (hn : TaskIdsNodup l) :
    TaskIdsNodup l2 := by
  unfold TaskIdsNodup at hn ⊢
  have hmap : l2.map (fun t => t.id) = l.map (fun t => t.id) := by
    have h1 : (projTasks l2).map Prod.fst = (projTasks l).map Prod.fst := by
      rw [h]
    simpa [projTasks, List.map_map] using h1
  rw [hmap]
  exact hn

/-- Appending a task whose dependencies all resolve to existing tasks
and whose id is fresh preserves both invariants. -/
theorem inv_append (tasks : List TeamTask) (t : TeamTask)
    (hval : ∀ d ∈ t.depends_on, ∃ u ∈ tasks, u.id = d)
    (hfresh : ∀ u ∈ tasks, u.id ≠ t.id)
    (hde : DepsEarlier tasks) (hnd : TaskIdsNodup tasks) :
    DepsEarlier (tasks ++ [t]) ∧ TaskIdsNodup (tasks ++ [t]) := by
  constructor
  · intro i u hi d hd
    by_cases hlt : i < tasks.length
    · rw [List.getElem?_append, if_pos hlt] at hi
      obtain ⟨j, u0, hj, hju, huid⟩ := hde i u hi d hd
      exact ⟨j, u0, hj, getElem?_append_of_lt _ _ j u0 hju, huid⟩
    · have hile : i = tasks.length := by
        by_contra hne
        have : tasks.length + 1 ≤ i := by
          omega
        rw [List.getElem?_eq_none (by simp; omega)] at hi
        exact absurd hi (by simp)
      subst hile
      have hu : u = t := by
        rw [List.getElem?_append, if_neg (by omega)] at hi
        simp at hi
        exact hi.symm
      subst hu
      obtain ⟨u0, hu0, hu0d⟩ := hval d hd
      obtain ⟨j, hj⟩ := List.mem_iff_getElem?.mp hu0
      have hjlt : j < tasks.length := by
        by_contra hge
        rw [List.getElem?_eq_none (by omega)] at hj
        exact absurd hj (by simp)
      exact ⟨j, u0, hjlt, getElem?_append_of_lt _ _ j u0 hj, hu0d⟩
  · unfold TaskIdsNodup at hnd ⊢
    rw [List.map_append]
    simp only [List.map_cons, List.map_nil]
    rw [List.nodup_append]
    refine ⟨hnd, List.nodup_singleton _, ?_⟩
    intro x hx
    simp only [List.mem_map] at hx
    obtain ⟨u, hu, hux⟩ := hx
    simp only [List.mem_singleton]
    rw [← hux]
    exact hfresh u hu

/-- Both invariants hold in every reachable aggregate. -/
theorem reachable_inv (s : TeamStateData) (h : Reachable s) :
    DepsEarlier s.tasks ∧ TaskIdsNodup s.tasks := by
  induction h with
  | init safe ln li now =>
    constructor
    · intro i t ht
      simp [initialState] at ht
    · simp [TaskIdsNodup, initialState]
  | step s op hr hf ih =>
    obtain ⟨hde, hnd⟩ := ih
    rcases applyOp_tasks_cases s op with heq | ⟨t, heq, hval, hop⟩ |
      ⟨tid, asg, now, t, _, _, _, heq⟩ | ⟨tid, res, now, _, heq⟩
    · rw [heq]
      exact ⟨hde, hnd⟩
    · rw [heq]
      obtain ⟨title, deps, now2, hop⟩ := hop
      have hfresh : ∀ u ∈ s.tasks, u.id ≠ t.id := by
        rw [hop] at hf
        exact hf
      exact inv_append s.tasks t hval hfresh hde hnd
    · rw [heq]
      have hproj : projTasks (updateFirst (fun u => u.id == tid)
          (fun u => { u with
                      status := .inProgress,
                      assignee_id := some asg,
                      updated_at := now }) s.tasks) = projTasks s.tasks := by
        apply projTasks_updateFirst
        intro u
        exact ⟨rfl, rfl⟩
      exact ⟨depsEarlier_of_projTasks_eq _ _ hproj hde,
             taskIdsNodup_of_projTasks_eq _ _ hproj hnd⟩
    · rw [heq]
      have hproj : projTasks (cascade_unblock
          (markCompleted s.tasks tid res now) now) = projTasks s.tasks := by
        rw [projTasks_cascade, projTasks_markCompleted]
      exact ⟨depsEarlier_of_projTasks_eq _ _ hproj hde,
             taskIdsNodup_of_projTasks_eq _ _ hproj hnd⟩

/-- An id occurs at index i. -/
def hasIdxAt (tasks : List TeamTask) (a : String) (i : Nat) : Prop :=
  ∃ t : TeamTask, tasks[i]? = some t ∧ t.id = a

/-- With pairwise distinct ids, an id determines its index. -/
theorem hasIdxAt_unique (tasks : List TeamTask) (hnd : TaskIdsNodup tasks)
    (a : String) (i j : Nat) (hi : hasIdxAt tasks a i)
    (hj : hasIdxAt tasks a j) : i = j := by
  obtain ⟨t, ht, hta⟩ := hi
  obtain ⟨u, hu, hua⟩ := hj
  have h1 : (tasks.map (fun t => t.id))[i]? = some a := by
    simp [List.getElem?_map, ht, hta]
  have h2 : (tasks.map (fun t => t.id))[j]? = some a := by
    simp [List.getElem?_map, hu, hua]
  have hlen : i < (tasks.map (fun t => t.id)).length := by
    by_contra hge
    push_neg at hge
    rw [List.getElem?_eq_none hge] at h1
    exact absurd h1 (by simp)
  exact List.getElem?_inj hlen hnd (h1.trans h2.symm)

/-- The source of a dependency edge occurs at some index. -/
theorem depEdge_exists_idx (tasks : List TeamTask) (a b : String)
    (he : DepEdge tasks a b) : ∃ i, hasIdxAt tasks a i := by
  obtain ⟨t, ht, hta, _⟩ := he
  obtain ⟨i, hi⟩ := List.mem_iff_getElem?.mp ht
  exact ⟨i, t, hi, hta⟩

/-- Under the invariants, a dependency edge goes from a higher index to
a strictly lower index. -/
theorem depEdge_idx_lt (tasks : List TeamTask) (hde : DepsEarlier tasks)
    (hnd : TaskIdsNodup tasks) (a b : String) (he : DepEdge tasks a b)
    (i j : Nat) (hi : hasIdxAt tasks a i) (hj : hasIdxAt tasks b j) :
    j < i := by
  obtain ⟨t, ht, hta, hbdep⟩ := he
  obtain ⟨i0, hi0⟩ := List.mem_iff_getElem?.mp ht
  obtain ⟨j0, u, hj0lt, hj0, huid⟩ := hde i0 t hi0 b hbdep
  have hii : i = i0 := hasIdxAt_unique tasks hnd a i i0 hi ⟨t, hi0, hta⟩
  have hjj : j = j0 := hasIdxAt_unique tasks hnd b j j0 hj ⟨u, hj0, huid⟩
  rw [hii, hjj]
  exact hj0lt

/-- Transitive dependency chains strictly decrease the index. -/
theorem transGen_idx_lt (tasks : List TeamTask) (hde : DepsEarlier tasks)
    (hnd : TaskIdsNodup tasks) (a b : String)
    (h : Relation.TransGen (DepEdge tasks) a b) :
    ∀ i j, hasIdxAt tasks a i → hasIdxAt tasks b j → j < i := by
  induction h with
  | single he =>
    intro i j hi hj
    exact depEdge_idx_lt tasks hde hnd _ _ he i j hi hj
  | tail hab hbc ih =>
    intro i j hi hj
    obtain ⟨k, hk⟩ := depEdge_exists_idx tasks _ _ hbc
    exact lt_trans (depEdge_idx_lt tasks hde hnd _ _ hbc k j hk hj)
      (ih i k hi hk)

/-- The source of a transitive dependency chain occurs at some index. -/
theorem transGen_src_idx (tasks : List TeamTask) (a b : String)
    (h : Relation.TransGen (DepEdge tasks) a b) :
    ∃ i, hasIdxAt tasks a i := by
  induction h with
  | single he => exact depEdge_exists_idx _ _ _ he
  | tail _ _ ih => exact ih

/-- C10: in every aggregate reachable through the public store
operations, assuming every generated task id is distinct from all
existing task ids, every dependency of a task references a
strictly-earlier-created task, and the dependency graph has no cycle:
no id transitively depends on itself. -/
theorem reachable_dep_graph_acyclic (s : TeamStateData)
    (h : Reachable s) :
    DepsEarlier s.tasks ∧
    ∀ a, ¬ Relation.TransGen (DepEdge s.tasks) a a := by
  obtain ⟨hde, hnd⟩ := reachable_inv s h
  refine ⟨hde, ?_⟩
  intro a hcyc
  obtain ⟨i, hi⟩ := transGen_src_idx s.tasks a a hcyc
  exact absurd (transGen_idx_lt s.tasks hde hnd a a hcyc i i hi hi)
    (lt_irrefl i)

/-- Witness for C10: a small reachable aggregate — a fresh team with two
tasks added, the second depending on the first — has an acyclic
dependency graph. -/
theorem reachable_dep_graph_acyclic_witness :
    DepsEarlier (applyOp (applyOp (initialState "proj" "lead" "agent-1" 0)
        (.addTask "A" [] "task-1" 1)) (.addTask "B" ["task-1"] "task-2" 2)).tasks ∧
    ∀ a, ¬ Relation.TransGen (DepEdge (applyOp
        (applyOp (initialState "proj" "lead" "agent-1" 0)
          (.addTask "A" [] "task-1" 1))
        (.addTask "B" ["task-1"] "task-2" 2)).tasks) a a :=
  reachable_dep_graph_acyclic _
    (Reachable.step _ _
      (Reachable.step _ _ (Reachable.init "proj" "lead" "agent-1" 0)
        (by intro t ht; simp [initialState] at ht))
      (by
        intro t ht
        simp [applyOp, applyOpE, add_task, initialState, Except.map] at ht
        rw [ht]
        decide))

end ConsoleTeam
